import Mathlib

/-!
Verification of the MLLP exchange-and-queue subsystem of
`src/server_client_system.py` (HL7 integration workflow between an AI
decision-support system and an anatomic-pathology LIS).

Byte strings are modelled as `List Nat`; Python's `bytes.find`, slicing and
`endswith` are embedded with their exact semantics (including `find` returning
`-1` and negative slice indices counting from the end).
-/

namespace APLIS

/-- The MLLP start-of-block byte `0x0B`. -/
def startByte : Nat := 0x0b

/-- The MLLP end-of-block sequence `0x1C 0x0D`. -/
def footer : List Nat := [0x1c, 0x0d]

/-- Whether `needle` occurs at position 0 of `hay` (Python substring match at a
fixed offset). -/
def startsWith : List Nat → List Nat → Bool
  | [], _ => true
  | _ :: _, [] => false
  | n :: ns, h :: hs => (n == h) && startsWith ns hs

/-- Index of the first occurrence of `needle` in `hay`, if any
(the search part of Python's `bytes.find`). -/
def findSub (needle : List Nat) : List Nat → Option Nat
  | [] => if startsWith needle [] then some 0 else none
  | x :: t =>
    if startsWith needle (x :: t) then some 0
    else (findSub needle t).map (· + 1)

/-- Python's `bytes.find`: first index of `needle` in `hay`, or `-1` when
absent. -/
def bytesFind (hay needle : List Nat) : Int :=
  match findSub needle hay with
  | some i => (i : Int)
  | none => -1

/-- Python slice-index normalisation: a negative index counts from the end,
and the result is clamped to `[0, n]`. -/
def pyIndexClamp (n : Nat) (i : Int) : Nat :=
  if i < 0 then (i + n).toNat else min i.toNat n

/-- Python's `b[s:e]` slice (step 1) on byte strings. -/
def pySlice (l : List Nat) (s e : Int) : List Nat :=
  (l.take (pyIndexClamp l.length e)).drop (pyIndexClamp l.length s)

/-- Python's `bytes.endswith`. -/
def endsWith (l suffix : List Nat) : Bool :=
  startsWith suffix.reverse l.reverse

/-- `strip_mllp_framing` (source lines 63-76): `start_pos` is
`byte_stream.find(b'\x0b') + 1`, `end_pos` is `byte_stream.find(b'\x1c\r')`,
and the result is the Python slice `byte_stream[start_pos:end_pos]`. -/
def strip_mllp_framing (byte_stream : List Nat) : List Nat :=
  pySlice byte_stream (bytesFind byte_stream [startByte] + 1)
    (bytesFind byte_stream footer)

/-- Modelled from the spec: `encode(payload)` of the Frame Codec ("prepends the
start marker and appends the end marker to a payload"). In the source the
framing of outgoing messages is done by the external HL7 library's
`to_mllp()`, which is not part of this repository. -/
def encode (payload : List Nat) : List Nat :=
  startByte :: payload ++ footer


/-- The inbound read loop of `store_msg_produce_ack` (source lines 232-235):
`input_msg = b''` and then `while not input_msg.endswith(b'\x1c\x0d'):
input_msg += commun_socket.recv(4096)`.  `chunks` is the sequence of byte
chunks the peer delivers before closing the connection; after the peer closes,
every further `recv` returns the empty byte string, leaving the buffer (and the
loop condition) unchanged forever, so the loop never exits: this divergence is
modelled as `none`.  `some buf` models the loop exiting with buffer `buf`. -/
def recvLoop : List Nat → List (List Nat) → Option (List Nat)
  | buf, chunks =>
    if endsWith buf footer then some buf
    else
      match chunks with
      | [] => none
      | c :: cs => recvLoop (buf ++ c) cs


/-- The observable per-connection steps of one inbound exchange. -/
inductive SessionEvent where
  /-- `strip_mllp_framing` + `decode('utf-8')` of the received frame. -/
  | decodeFrame
  /-- `create_ack_msg.create_message(hl7_msg_decoded)` (Ack Builder). -/
  | buildAck
  /-- `msg_queue.put((hl7_msg_decoded, n))`: enqueue the payload with retry
  counter `n` onto the work queue. -/
  | enqueue (attempt : Nat)
  /-- `commun_socket.send(ack_out)`: write the framed acknowledgment back. -/
  | sendAck
  /-- `commun_socket.close()`. -/
  | closeConn
deriving DecidableEq

/-- The order of the per-connection steps of a successful inbound exchange in
`store_msg_produce_ack` (source lines 242-276): strip the framing and decode
(line 242-245), build the ACK message (line 253), put `(hl7_msg_decoded, 0)` on
the queue (line 256), encode and send the ACK (lines 266-268), close the socket
(line 275). -/
def sessionEvents : List SessionEvent :=
  [.decodeFrame, .buildAck, .enqueue 0, .sendAck, .closeConn]

/-- A queued work item: the decoded HL7 payload together with its retry
counter, exactly the tuples `(msg, retry)` stored in `input_msg_queue`. -/
abbrev QueueItem : Type := String × Nat

/-- The producer side (source line 256): `queue.Queue.put` appends the fresh
item, with retry counter `0`, at the back of the queue. -/
def enqueueFresh (q : List QueueItem) (m : String) : List QueueItem :=
  q ++ [(m, 0)]

/-- The retry reinsertion (source line 169):
`input_msg_queue.queue.insert(0, (msg, retry + 1))` pushes the failed item back
at the front of the queue with its counter incremented. -/
def requeueFront (q : List QueueItem) (m : String) (retry : Nat) : List QueueItem :=
  (m, retry + 1) :: q

/-- Outcome of one iteration of the `msg_worker` loop body. -/
inductive StepResult where
  /-- The body reached the end (or a `continue`): the loop runs again with the
  given queue, having handed the given payloads to the Outbound Sender. -/
  | looped (queue : List QueueItem) (sent : List String)
  /-- An exception escaped the loop body uncaught, terminating the worker
  thread; the queue is left as given. -/
  | crashed (queue : List QueueItem)
deriving DecidableEq

/-- One iteration of the `msg_worker` loop body (source lines 139-195) on the
item `(m, retry)` popped from the front of the queue, `rest` being the rest of
the queue.  `inferOk` tells whether `model_inference.run_inference` returns
normally, `sendOk` whether `start_client` (connect, send, read ack) returns
normally.  The `try`/`except` of the source wraps only the `run_inference`
call: on an inference failure the item is requeued at the front when
`retry < num_retries` and dropped otherwise, but `start_client` is called
outside the `try`, so an exception raised there propagates out of the loop
body uncaught. -/
def workerStep (inferOk sendOk : Bool) (m : String) (retry : Nat)
    (rest : List QueueItem) (num_retries : Nat) : StepResult :=
  if inferOk then
    if sendOk then .looped rest [m] else .crashed rest
  else
    if retry < num_retries then .looped (requeueFront rest m retry) []
    else .looped rest []

/-- The observable outcome of a run of the retry worker: payloads handed to the
Outbound Sender (`start_client`), in order, and payloads dropped after the
retry ceiling, in order. -/
structure WorkerTrace where
  handoffs : List String
  drops : List String
deriving DecidableEq

/-- The `msg_worker` loop (source lines 139-195) run over a queue, with all
outbound sends succeeding.  `oracle` lists, in invocation order, whether each
`model_inference.run_inference` call returns normally (`true`) or raises
(`false`); the run stops when the oracle is exhausted or the queue is empty
(the worker then blocks on `input_msg_queue.get()`).  Each iteration pops the
front item; on success the payload is handed to `start_client`; on failure the
item is pushed back at the front with `retry + 1` when `retry < num_retries`,
and dropped permanently otherwise. -/
def runQueue (num_retries : Nat) : List Bool → List QueueItem → WorkerTrace
  | _, [] => ⟨[], []⟩
  | [], _ => ⟨[], []⟩
  | ok :: oracle, (m, retry) :: rest =>
    if ok then
      let t := runQueue num_retries oracle rest
      ⟨m :: t.handoffs, t.drops⟩
    else if retry < num_retries then
      runQueue num_retries oracle (requeueFront rest m retry)
    else
      let t := runQueue num_retries oracle rest
      ⟨t.handoffs, m :: t.drops⟩


/-- The long-lived roles of the process: `store_msg_produce_ack` on the main
thread, the `msg_worker` thread and the `cleanup_worker` thread. -/
inductive Role where
  /-- The accept loop of `store_msg_produce_ack`. -/
  | listener
  /-- The retry worker loop of `msg_worker`. -/
  | worker
  /-- The periodic sweep of `cleanup_worker`. -/
  | cleanup
deriving DecidableEq

/-- Whether a thread is currently inside an invocation of the Processing
Callback (`model_inference.run_inference`). -/
inductive Phase where
  /-- Anywhere in the thread's loop outside the Processing Callback. -/
  | idle
  /-- Between entry to and return (or raise) from `run_inference`. -/
  | processing
deriving DecidableEq

/-- A running thread: its role and whether it is inside the Processing
Callback. -/
abbrev Thread : Type := Role × Phase

/-- The threads of the process as set up by `main` (source lines 312-324):
exactly one `msg_worker` thread and one `cleanup_worker` thread are started,
and `store_msg_produce_ack` then runs on the main thread.  All start outside
the Processing Callback. -/
def initThreads : List Thread :=
  [(.worker, .idle), (.cleanup, .idle), (.listener, .idle)]

/-- The steps an individual thread can take, as far as the Processing Callback
is concerned.  Only the body of `msg_worker` (source line 160) ever calls
`model_inference.run_inference`, and it does so synchronously: the worker
enters the callback and cannot do anything else until the call returns or
raises.  `store_msg_produce_ack` and `cleanup_worker` never call it. -/
inductive ThreadStep : Role → Phase → Phase → Prop where
  /-- The worker thread enters `run_inference`. -/
  | beginInfer : ThreadStep .worker .idle .processing
  /-- `run_inference` returns or raises and the worker continues its loop. -/
  | endInfer : ThreadStep .worker .processing .idle
  /-- Any step of the accept loop (it never enters the callback). -/
  | listenerLoop : ThreadStep .listener .idle .idle
  /-- Any step of the cleanup loop (it never enters the callback). -/
  | cleanupLoop : ThreadStep .cleanup .idle .idle

/-- Interleaving semantics: a system step picks one thread and lets it take one
of its steps; all other threads are unchanged. -/
inductive SysStep : List Thread → List Thread → Prop where
  | step (pre post : List Thread) (r : Role) (p q : Phase) :
      ThreadStep r p q → SysStep (pre ++ (r, p) :: post) (pre ++ (r, q) :: post)

/-- A system state reachable from the thread configuration set up by `main`. -/
def Reachable (s : List Thread) : Prop :=
  Relation.ReflTransGen SysStep initThreads s

/-- The number of threads currently inside the Processing Callback. -/
def processingCount (s : List Thread) : Nat :=
  s.countP (fun t => t.2 == Phase.processing)

/-! ### Lemmas about the embedded Python byte-string primitives -/

lemma findSub_cons_of_not_starts (needle : List Nat) (x : Nat) (t : List Nat)
    (h : startsWith needle (x :: t) = false) :
    findSub needle (x :: t) = (findSub needle t).map (· + 1) := by
  simp [findSub, h]

lemma findSub_none_cons {needle : List Nat} {x : Nat} {t : List Nat}
    (h : findSub needle (x :: t) = none) :
    startsWith needle (x :: t) = false ∧ findSub needle t = none := by
  by_cases hs : startsWith needle (x :: t)
  · simp [findSub, hs] at h
  · rw [Bool.not_eq_true] at hs
    refine ⟨hs, ?_⟩
    rw [findSub_cons_of_not_starts _ _ _ hs] at h
    simpa using h

lemma startsWith_footer_cons_append {x : Nat} {t : List Nat} (z : Nat) (l : List Nat)
    (hz : z ≠ 0x0d)
    (h : startsWith footer (x :: t) = false) :
    startsWith footer (x :: (t ++ z :: l)) = false := by
  cases t with
  | nil =>
    simp only [footer, startsWith, List.nil_append, Bool.and_eq_false_iff]
    right
    simp [Nat.beq_eq, Ne.symm hz]
  | cons y t' =>
    simp only [footer, startsWith, List.cons_append, Bool.and_eq_false_iff,
      Bool.and_true] at h ⊢
    exact h

lemma findSub_footer_append_footer (P : List Nat) (h : findSub footer P = none) :
    findSub footer (P ++ footer) = some P.length := by
  induction P with
  | nil => decide
  | cons x t ih =>
    obtain ⟨h1, h2⟩ := findSub_none_cons h
    have hs : startsWith footer (x :: (t ++ footer)) = false :=
      startsWith_footer_cons_append 0x1c [0x0d] (by decide) h1
    rw [List.cons_append, findSub_cons_of_not_starts _ _ _ hs, ih h2]
    simp

lemma findSub_start_append (g rest : List Nat) (h : findSub [startByte] g = none) :
    findSub [startByte] (g ++ startByte :: rest) = some g.length := by
  induction g with
  | nil => simp [findSub, startsWith, startByte]
  | cons x t ih =>
    obtain ⟨h1, h2⟩ := findSub_none_cons h
    have hs : startsWith [startByte] (x :: (t ++ startByte :: rest)) = false := by
      simp only [startsWith, Bool.and_true] at h1 ⊢
      exact h1
    rw [List.cons_append, findSub_cons_of_not_starts _ _ _ hs, ih h2]
    simp

lemma findSub_footer_append_keep (g rest : List Nat) (h : findSub footer g = none) :
    findSub footer (g ++ startByte :: rest) =
      (findSub footer (startByte :: rest)).map (· + g.length) := by
  induction g with
  | nil => simp
  | cons x t ih =>
    obtain ⟨h1, h2⟩ := findSub_none_cons h
    have hs : startsWith footer (x :: (t ++ startByte :: rest)) = false :=
      startsWith_footer_cons_append startByte rest (by decide) h1
    rw [List.cons_append, findSub_cons_of_not_starts _ _ _ hs, ih h2]
    cases findSub footer (startByte :: rest) with
    | none => rfl
    | some k => simp; omega

lemma findSub_le_length {needle hay : List Nat} {i : Nat}
    (h : findSub needle hay = some i) : i ≤ hay.length := by
  induction hay generalizing i with
  | nil =>
    rw [findSub] at h
    split at h
    · simp at h; omega
    · exact absurd h (by simp)
  | cons x t ih =>
    by_cases hs : startsWith needle (x :: t)
    · simp [findSub, hs] at h; omega
    · rw [Bool.not_eq_true] at hs
      rw [findSub_cons_of_not_starts _ _ _ hs] at h
      cases hf : findSub needle t with
      | none => rw [hf] at h; simp at h
      | some j =>
        rw [hf] at h
        simp only [Option.map_some', Option.some.injEq] at h
        have := ih hf
        simp only [List.length_cons]
        omega

lemma pySlice_nat (l : List Nat) (s e : Nat) (hs : s ≤ l.length) (he : e ≤ l.length) :
    pySlice l (s : Int) (e : Int) = (l.take e).drop s := by
  unfold pySlice pyIndexClamp
  have h1 : ¬ ((s : Int) < 0) := by omega
  have h2 : ¬ ((e : Int) < 0) := by omega
  rw [if_neg h1, if_neg h2]
  simp [Nat.min_eq_left hs, Nat.min_eq_left he]

lemma encode_eq_cons (P : List Nat) : encode P = startByte :: (P ++ footer) := by
  simp [encode]

lemma length_encode (P : List Nat) : (encode P).length = P.length + 3 := by
  simp only [encode_eq_cons, List.length_cons, List.length_append, footer,
    List.length_cons, List.length_nil]

lemma findSub_footer_encode (P : List Nat) (h : findSub footer P = none) :
    findSub footer (encode P) = some (P.length + 1) := by
  have hne : startsWith footer (startByte :: (P ++ footer)) = false := by
    simp [footer, startsWith, startByte]
  rw [encode_eq_cons, findSub_cons_of_not_starts _ _ _ hne,
    findSub_footer_append_footer P h]
  rfl

lemma findSub_start_encode (P : List Nat) :
    findSub [startByte] (encode P) = some 0 := by
  rw [encode_eq_cons]
  simp [findSub, startsWith]

/-! ### Claim theorems: the frame codec -/

/-- C1 counterexample: the round trip fails as stated for the payload
`0x1C 0x0D` — encoding it and stripping the framing yields the empty payload,
because `strip_mllp_framing` cuts at the first occurrence of the end sequence,
which here lies inside the payload. -/
theorem roundtrip_counterexample :
    strip_mllp_framing (encode [0x1c, 0x0d]) ≠ [0x1c, 0x0d] := by decide

/-- C1 (amended): for every payload `P` that does not contain the end sequence
`0x1C 0x0D`, stripping the MLLP framing from the byte stream produced by
encoding `P` returns exactly `P`. -/
theorem roundtrip_of_no_footer (P : List Nat) (h : findSub footer P = none) :
    strip_mllp_framing (encode P) = P := by
  have hstart : bytesFind (encode P) [startByte] = 0 := by
    rw [bytesFind, findSub_start_encode]
    rfl
  have hend : bytesFind (encode P) footer = ((P.length + 1 : Nat) : Int) := by
    rw [bytesFind, findSub_footer_encode P h]
  have hl1 : 1 ≤ (encode P).length := by rw [length_encode]; omega
  have hl2 : P.length + 1 ≤ (encode P).length := by rw [length_encode]; omega
  rw [strip_mllp_framing, hstart, hend]
  have h1 : ((0 : Int) + 1) = ((1 : Nat) : Int) := by norm_num
  rw [h1, pySlice_nat _ 1 (P.length + 1) hl1 hl2, encode_eq_cons,
    List.take_succ_cons, List.take_left, List.drop_succ_cons, List.drop_zero]

/-- C1 witness: a concrete payload without the end sequence round-trips. -/
theorem roundtrip_of_no_footer_witness :
    findSub footer [0x4d, 0x53, 0x48] = none ∧
      strip_mllp_framing (encode [0x4d, 0x53, 0x48]) = [0x4d, 0x53, 0x48] :=
  ⟨by decide, roundtrip_of_no_footer [0x4d, 0x53, 0x48] (by decide)⟩

/-- C8 counterexample: with garbage `[0x0B]` before a valid frame carrying the
payload `[0x42]`, the decoder does not recover the payload: `find(b'\x0b')`
locates the garbage's own `0x0B`, so the result is `[0x0B, 0x42]`. -/
theorem garbage_skip_counterexample :
    strip_mllp_framing ([0x0b] ++ encode [0x42]) ≠ [0x42] := by decide

/-- C8 (amended): for every byte stream consisting of garbage bytes that
contain neither the start byte `0x0B` nor the end sequence `0x1C 0x0D`,
followed by a valid frame whose payload does not contain the end sequence, the
decoder discards the garbage prefix and returns the correct payload. -/
theorem garbage_skip (g P : List Nat)
    (hg1 : findSub [startByte] g = none) (hg2 : findSub footer g = none)
    (hP : findSub footer P = none) :
    strip_mllp_framing (g ++ encode P) = P := by
  have hPf : findSub footer (startByte :: (P ++ footer)) = some (P.length + 1) := by
    rw [← encode_eq_cons]
    exact findSub_footer_encode P hP
  have hstart : bytesFind (g ++ encode P) [startByte] = (g.length : Int) := by
    rw [bytesFind, encode_eq_cons, findSub_start_append g (P ++ footer) hg1]
  have hend : bytesFind (g ++ encode P) footer
      = ((P.length + 1 + g.length : Nat) : Int) := by
    rw [bytesFind, encode_eq_cons, findSub_footer_append_keep g (P ++ footer) hg2,
      hPf]
    rfl
  have hlen : (g ++ encode P).length = g.length + P.length + 3 := by
    rw [List.length_append, length_encode]; omega
  have hl1 : g.length + 1 ≤ (g ++ encode P).length := by rw [hlen]; omega
  have hl2 : P.length + 1 + g.length ≤ (g ++ encode P).length := by rw [hlen]; omega
  rw [strip_mllp_framing, hstart, hend]
  have h1 : ((g.length : Int) + 1) = ((g.length + 1 : Nat) : Int) := by push_cast; ring
  rw [h1, pySlice_nat _ (g.length + 1) (P.length + 1 + g.length) hl1 hl2]
  have h2 : g ++ encode P = (g ++ startByte :: P) ++ footer := by
    rw [encode_eq_cons]
    simp
  have h3 : (g ++ startByte :: P).length = P.length + 1 + g.length := by
    simp only [List.length_append, List.length_cons]
    omega
  rw [h2, List.take_left' h3, List.append_cons g startByte P,
    List.drop_left' (by simp)]

/-- C8 witness: concrete garbage `[0x00, 0x01]` before a frame with payload
`[0x41]` is discarded and the payload recovered. -/
theorem garbage_skip_witness :
    findSub [startByte] [0x00, 0x01] = none ∧ findSub footer [0x00, 0x01] = none ∧
      findSub footer [0x41] = none ∧
      strip_mllp_framing ([0x00, 0x01] ++ encode [0x41]) = [0x41] :=
  ⟨by decide, by decide, by decide,
    garbage_skip [0x00, 0x01] [0x41] (by decide) (by decide) (by decide)⟩

/-- C10: `strip_mllp_framing` is total and does not reject a buffer lacking the
start byte `0x0B`: on any byte string with no `0x0B` whose first end sequence
`0x1C 0x0D` is at position `e`, it returns the first `e` bytes of the buffer —
the frame is silently accepted as if it began at position 0. -/
theorem missing_start_marker_accepted (bs : List Nat) (e : Nat)
    (h1 : findSub [startByte] bs = none) (h2 : findSub footer bs = some e) :
    strip_mllp_framing bs = bs.take e := by
  have hstart : bytesFind bs [startByte] = -1 := by
    rw [bytesFind, h1]
  have hend : bytesFind bs footer = ((e : Nat) : Int) := by
    rw [bytesFind, h2]
  rw [strip_mllp_framing, hstart, hend]
  have h3 : ((-1 : Int) + 1) = ((0 : Nat) : Int) := by norm_num
  rw [h3, pySlice_nat bs 0 e (by omega) (findSub_le_length h2), List.drop_zero]

/-- C10 witness: the buffer `[0x41, 0x1C, 0x0D]` has no start byte and its
first end sequence at position 1; the decoder returns `[0x41]`. -/
theorem missing_start_marker_accepted_witness :
    findSub [startByte] [0x41, 0x1c, 0x0d] = none ∧
      findSub footer [0x41, 0x1c, 0x0d] = some 1 ∧
      strip_mllp_framing [0x41, 0x1c, 0x0d] = [0x41, 0x1c, 0x0d].take 1 :=
  ⟨by decide, by decide,
    missing_start_marker_accepted [0x41, 0x1c, 0x0d] 1 (by decide) (by decide)⟩

/-! ### Claim theorems: the inbound listener -/

/-- C2: the read loop of the inbound listener only exits once the accumulated
buffer ends with the end sequence; on the failing input — the peer delivers the
partial frame `0x0B 0x41` and then closes the connection, so every further
`recv` returns the empty byte string — the loop never terminates (`none`): the
session is not aborted, and the accept loop never reaches a subsequent
connection.  Delivering the completing chunk instead makes the loop return the
buffer. -/
theorem recv_loop_hangs_on_truncated_frame :
    recvLoop [] [[0x0b, 0x41]] = none ∧
      recvLoop [] [[0x0b, 0x41], [0x1c, 0x0d]] = some [0x0b, 0x41, 0x1c, 0x0d] := by
  decide

/-- C7 counterexample: in the per-connection step order of
`store_msg_produce_ack`, the framed acknowledgment is not written before the
payload is enqueued — the enqueue (source line 256) precedes the
`commun_socket.send` of the acknowledgment (source line 268). -/
theorem ack_before_enqueue_counterexample :
    ¬ sessionEvents.indexOf SessionEvent.sendAck
        < sessionEvents.indexOf (SessionEvent.enqueue 0) := by
  decide

/-- C7 (amended): on every successful inbound exchange the decoded payload is
enqueued (with attempt = 0) onto the work queue before the framed
acknowledgment is written back on the connection, and the connection is closed
last.  (The acknowledgment payload is built before the enqueue, but its write
happens after.) -/
theorem enqueue_before_ack_write :
    sessionEvents.indexOf (SessionEvent.enqueue 0)
        < sessionEvents.indexOf SessionEvent.sendAck ∧
      sessionEvents.getLast? = some SessionEvent.closeConn := by
  decide

/-! ### Claim theorems: the retry worker -/

/-- C3: in `msg_worker` the `try`/`except` wraps only the inference call, and
`start_client` is invoked outside it, so a connect or read failure in the
Outbound Sender is not handled as a processing failure: the exception escapes
the loop body uncaught and the retry-worker thread terminates (first
conjunct), whereas an inference failure is caught and the item is requeued
(second conjunct). -/
theorem outbound_failure_kills_worker :
    workerStep true false "m" 0 [] 3 = StepResult.crashed [] ∧
      workerStep false true "m" 0 [] 3 = StepResult.looped [("m", 1)] [] :=
  ⟨rfl, rfl⟩

lemma runQueue_nil_queue (n : Nat) (oracle : List Bool) :
    runQueue n oracle [] = ⟨[], []⟩ := by
  cases oracle <;> rfl

lemma runQueue_success (n : Nat) (oracle : List Bool) (m : String) (r : Nat)
    (rest : List QueueItem) :
    runQueue n (true :: oracle) ((m, r) :: rest)
      = ⟨m :: (runQueue n oracle rest).handoffs, (runQueue n oracle rest).drops⟩ := by
  rfl

lemma runQueue_fail_requeue (n : Nat) (oracle : List Bool) (m : String) (r : Nat)
    (rest : List QueueItem) (h : r < n) :
    runQueue n (false :: oracle) ((m, r) :: rest)
      = runQueue n oracle (requeueFront rest m r) := by
  rw [runQueue]
  simp [h]

lemma runQueue_fail_drop (n : Nat) (oracle : List Bool) (m : String) (r : Nat)
    (rest : List QueueItem) (h : ¬ r < n) :
    runQueue n (false :: oracle) ((m, r) :: rest)
      = ⟨(runQueue n oracle rest).handoffs, m :: (runQueue n oracle rest).drops⟩ := by
  rw [runQueue]
  simp [h]

lemma runQueue_fails_then_succeeds (n : Nat) (m : String) :
    ∀ (k r : Nat) (oracle : List Bool), r + k ≤ n →
      runQueue n (List.replicate k false ++ true :: oracle) [(m, r)]
        = ⟨[m], []⟩ := by
  intro k
  induction k with
  | zero =>
    intro r oracle _
    rw [List.replicate_zero, List.nil_append, runQueue_success, runQueue_nil_queue]
  | succ k ih =>
    intro r oracle hr
    rw [List.replicate_succ, List.cons_append,
      runQueue_fail_requeue _ _ _ _ _ (by omega)]
    exact ih (r + 1) oracle (by omega)

/-- C4: an item enqueued with attempt = 0 whose processing fails exactly
`k < max_attempts` times and then succeeds yields exactly one handoff to the
Outbound Sender and no permanent drop, whatever the processing outcomes
scheduled afterwards. -/
theorem retry_then_success_single_handoff (m : String) (k n : Nat) (h : k < n)
    (oracle : List Bool) :
    runQueue n (List.replicate k false ++ true :: oracle) [(m, 0)]
      = ⟨[m], []⟩ :=
  runQueue_fails_then_succeeds n m k 0 oracle (by omega)

/-- C4 witness: with `max_attempts = 3`, two failures followed by a success
hand the item off exactly once. -/
theorem retry_then_success_single_handoff_witness :
    2 < 3 ∧
      runQueue 3 (List.replicate 2 false ++ true :: []) [("s", 0)]
        = ⟨["s"], []⟩ :=
  ⟨by decide, retry_then_success_single_handoff "s" 2 3 (by decide) []⟩

lemma runQueue_fails_exhaust (n : Nat) (m : String) :
    ∀ (k r : Nat) (oracle : List Bool), r + k = n →
      runQueue n (List.replicate (k + 1) false ++ oracle) [(m, r)]
        = ⟨[], [m]⟩ := by
  intro k
  induction k with
  | zero =>
    intro r oracle hr
    rw [List.replicate_one, List.cons_append, List.nil_append,
      runQueue_fail_drop _ _ _ _ _ (by omega), runQueue_nil_queue]
  | succ k ih =>
    intro r oracle hr
    rw [List.replicate_succ, List.cons_append,
      runQueue_fail_requeue _ _ _ _ _ (by omega)]
    exact ih (r + 1) oracle (by omega)

/-- C5: an item whose processing fails `max_attempts + 1` times in a row is
abandoned: it is dropped permanently, never handed to the Outbound Sender, and
no later processing outcome can make it reappear (the trace is the same for
every continuation of the oracle). -/
theorem exhausted_retries_abandoned (m : String) (n : Nat) (oracle : List Bool) :
    runQueue n (List.replicate (n + 1) false ++ oracle) [(m, 0)]
      = ⟨[], [m]⟩ :=
  runQueue_fails_exhaust n m n 0 oracle (by omega)

/-- C6: retry priority ordering.  First conjunct: when a failed item `A` has
been reinserted at the front (with attempt `r + 1 ≥ 1`) of a queue holding the
fresh item `B` (attempt 0), `A` is dequeued and handed off before `B`.  Second
conjunct: fresh arrivals among themselves are dequeued in FIFO order. -/
theorem retry_priority (A B B1 B2 : String) (r n : Nat) :
    runQueue n [true, true] (requeueFront (enqueueFresh [] B) A r)
        = ⟨[A, B], []⟩ ∧
      runQueue n [true, true] (enqueueFresh (enqueueFresh [] B1) B2)
        = ⟨[B1, B2], []⟩ :=
  ⟨rfl, rfl⟩

/-! ### Claim theorems: single-lane processing -/

/-- The structural invariant behind the single-lane property: the thread list
holds at most one worker-role thread, and only a worker-role thread can be
inside the Processing Callback. -/
def laneInv (s : List Thread) : Prop :=
  s.countP (fun t => t.1 == Role.worker) ≤ 1 ∧
    ∀ t ∈ s, t.2 = Phase.processing → t.1 = Role.worker

lemma laneInv_init : laneInv initThreads := by
  constructor
  · decide
  · decide

lemma laneInv_step {s s' : List Thread} (h : SysStep s s') (hs : laneInv s) :
    laneInv s' := by
  obtain ⟨hc, hp⟩ := hs
  cases h with
  | step pre post r p q hstep =>
    constructor
    · simp only [List.countP_append, List.countP_cons] at hc ⊢
      exact hc
    · intro t ht htp
      rcases List.mem_append.1 ht with h1 | h1
      · exact hp t (List.mem_append_left _ h1) htp
      · rcases List.mem_cons.1 h1 with h2 | h2
        · subst h2
          cases hstep with
          | beginInfer => rfl
          | endInfer => exact absurd htp (by simp)
          | listenerLoop => exact absurd htp (by simp)
          | cleanupLoop => exact absurd htp (by simp)
        · exact hp t (List.mem_append_right _ (List.mem_cons_of_mem _ h2)) htp

lemma laneInv_reachable {s : List Thread} (h : Reachable s) : laneInv s := by
  induction h with
  | refl => exact laneInv_init
  | tail _ hstep ih => exact laneInv_step hstep ih

/-- C9: single-lane processing invariant.  `main` starts exactly one
`msg_worker` thread, and only the worker's loop ever enters the Processing
Callback, so in every state reachable from the configuration set up by `main`
at most one thread is inside a `run_inference` invocation: no two Processing
Callback invocations overlap. -/
theorem single_lane_processing (s : List Thread) (h : Reachable s) :
    processingCount s ≤ 1 := by
  obtain ⟨hc, hp⟩ := laneInv_reachable h
  refine le_trans (List.countP_mono_left ?_) hc
  intro t ht htp
  have h2 : t.2 = Phase.processing := by
    simpa using htp
  simpa using hp t ht h2

/-- C9 witness: the initial configuration is reachable and has no thread in
the Processing Callback. -/
theorem single_lane_processing_witness :
    Reachable initThreads ∧ processingCount initThreads ≤ 1 :=
  ⟨Relation.ReflTransGen.refl,
    single_lane_processing initThreads Relation.ReflTransGen.refl⟩

end APLIS
